import Mathlib

/- Shallow embedding of src/main.py (piyolog_weight).

   Strings are modelled as lists of characters (the log lines are ASCII).
   Python floats are modelled as exact nonnegative rationals in lowest
   terms: the weight tokens are decimal digit/dot literals, and the program
   only stores the parsed values, never computing with them.  A datetime is
   a year/month/day/hour/minute record: seconds and microseconds are always
   zero in this program (datetime.min has them zero, and only
   replace(hour=..., minute=...) is ever applied). -/

/-- Character is an ASCII digit 0-9, the class matched by a digit pattern. -/
def isDigitC (c : Char) : Bool := 48 ≤ c.toNat && c.toNat ≤ 57

/-- Numeric value of an ASCII digit character. -/
def dval (c : Char) : Nat := c.toNat - 48

/-- ASCII whitespace, the class matched by a whitespace pattern. -/
def isWsC (c : Char) : Bool :=
  c == ' ' || c == '\t' || c == '\n' || c == '\x0b' || c == '\x0c' || c == '\r'

/-- ASCII word character (letter, digit or underscore), used by the word
boundary in the time regex. -/
def isWordC (c : Char) : Bool :=
  (97 ≤ c.toNat && c.toNat ≤ 122) || (65 ≤ c.toNat && c.toNat ≤ 90) || isDigitC c || c == '_'

/-- Lowercase an ASCII letter, identity elsewhere; strptime matches month and
weekday names case-insensitively. -/
def lowc (c : Char) : Char :=
  if 65 ≤ c.toNat && c.toNat ≤ 90 then Char.ofNat (c.toNat + 32) else c

/-- Case-insensitive comparison of a character against a lowercase target. -/
def ci (c target : Char) : Bool := lowc c == target

/-- The seven weekday abbreviations accepted by the strptime directive for an
abbreviated weekday name, matched case-insensitively.  The parsed weekday is
never used to build the resulting datetime. -/
def weekdayOK (a b c : Char) : Bool :=
  (ci a 'm' && ci b 'o' && ci c 'n') || (ci a 't' && ci b 'u' && ci c 'e') ||
  (ci a 'w' && ci b 'e' && ci c 'd') || (ci a 't' && ci b 'h' && ci c 'u') ||
  (ci a 'f' && ci b 'r' && ci c 'i') || (ci a 's' && ci b 'a' && ci c 't') ||
  (ci a 's' && ci b 'u' && ci c 'n')

/-- The twelve month abbreviations, in calendar order. -/
def monthsTbl : List (Char × Char × Char) :=
  [('j', 'a', 'n'), ('f', 'e', 'b'), ('m', 'a', 'r'), ('a', 'p', 'r'),
   ('m', 'a', 'y'), ('j', 'u', 'n'), ('j', 'u', 'l'), ('a', 'u', 'g'),
   ('s', 'e', 'p'), ('o', 'c', 't'), ('n', 'o', 'v'), ('d', 'e', 'c')]

/-- Case-insensitive lookup of a three-letter name in a table, numbering the
entries from k upward. -/
def monthLookup (k : Nat) : List (Char × Char × Char) → Char → Char → Char → Option Nat
  | [], _, _, _ => none
  | t :: ts, a, b, c =>
    if ci a t.1 && ci b t.2.1 && ci c t.2.2 then some k else monthLookup (k + 1) ts a b c

/-- The twelve month abbreviations accepted by the strptime directive for an
abbreviated month name, matched case-insensitively, with their month number. -/
def monthNum (a b c : Char) : Option Nat := monthLookup 1 monthsTbl a b c

/-- Consume one-or-more whitespace characters (the translation of a literal
space in the strptime format, which matches greedily). -/
def skipWs1 (cs : List Char) : Option (List Char) :=
  match cs with
  | c :: rest => if isWsC c then some (rest.dropWhile isWsC) else none
  | [] => none

/-- Day-of-month field of strptime: two digits valued 01-31, or one digit 1-9.
Backtracking adds nothing: a two-digit prospect is never re-read as one digit
because the following literal comma cannot be a digit, and a leading space
before a single digit is already consumed by the greedy whitespace. -/
def parseDay (cs : List Char) : Option (Nat × List Char) :=
  match cs with
  | a :: b :: rest =>
    if isDigitC a && isDigitC b then
      if 1 ≤ dval a * 10 + dval b ∧ dval a * 10 + dval b ≤ 31 then
        some (dval a * 10 + dval b, rest)
      else none
    else if isDigitC a && decide (1 ≤ dval a) then some (dval a, b :: rest) else none
  | [a] => if isDigitC a && decide (1 ≤ dval a) then some (dval a, []) else none
  | [] => none

/-- Year field of strptime: exactly four digits, and they must end the string
(strptime rejects unconverted trailing data). -/
def parseYear4 (cs : List Char) : Option Nat :=
  match cs with
  | [y1, y2, y3, y4] =>
    if isDigitC y1 && isDigitC y2 && isDigitC y3 && isDigitC y4 then
      some (((dval y1 * 10 + dval y2) * 10 + dval y3) * 10 + dval y4)
    else none
  | _ => none

/-- Gregorian leap-year rule used by datetime validation. -/
def isLeapYear (y : Nat) : Bool := y % 4 == 0 && (!(y % 100 == 0) || y % 400 == 0)

/-- Length of a month, used by datetime validation of the parsed day. -/
def daysInMonth (y m : Nat) : Nat :=
  if m = 2 then (if isLeapYear y then 29 else 28)
  else if m = 4 ∨ m = 6 ∨ m = 9 ∨ m = 11 then 30 else 31

/-- A Python datetime as used by this program: seconds are always zero. -/
structure PyDateTime where
  year : Nat
  month : Nat
  day : Nat
  hour : Nat
  minute : Nat
deriving DecidableEq, Repr

/-- Rest of the date format after the day field: a comma, whitespace, the
four-digit year ending the line, then datetime range validation (year at
least 1; day within the month).  An out-of-range date raises ValueError inside
strptime, which convert_to_datetime catches, so the result is none. -/
def afterDay (mo dy : Nat) (cs : List Char) : Option PyDateTime :=
  match cs with
  | c :: r =>
    if c == ',' then
      (skipWs1 r).bind fun r7 =>
        (parseYear4 r7).bind fun yr =>
          if 1 ≤ yr ∧ dy ≤ daysInMonth yr mo then some ⟨yr, mo, dy, 0, 0⟩ else none
    else none
  | [] => none

/-- Rest of the date format after the month name: whitespace then the day. -/
def afterMonth (mo : Nat) (cs : List Char) : Option PyDateTime :=
  (skipWs1 cs).bind fun r4 => (parseDay r4).bind fun p => afterDay mo p.1 p.2

/-- Rest of the date format after the weekday and comma: whitespace then the
three-letter month name. -/
def afterWeekday (cs : List Char) : Option PyDateTime :=
  (skipWs1 cs).bind fun r2 =>
    match r2 with
    | m1 :: m2 :: m3 :: r3 => (monthNum m1 m2 m3).bind fun mo => afterMonth mo r3
    | _ => none

/-- Translation of convert_to_datetime from src/main.py: strptime of the whole
line against the fixed weekday-comma-month-day-comma-year format, returning
the parsed date at midnight on success and none on any ValueError. -/
def convert_to_datetime (cs : List Char) : Option PyDateTime :=
  match cs with
  | a1 :: a2 :: a3 :: c4 :: r1 =>
    if weekdayOK a1 a2 a3 && (c4 == ',') then afterWeekday r1 else none
  | _ => none

/-- The marker word searched for in weight lines. -/
def weightWord : List Char := ['W', 'e', 'i', 'g', 'h', 't']

/-- Boolean test that the first list starts the second. -/
def leads : List Char → List Char → Bool
  | [], _ => true
  | _ :: _, [] => false
  | p :: ps, c :: rest => p == c && leads ps rest

/-- Substring containment, the translation of the Python in-operator on
strings. -/
def containsSub (pat : List Char) : List Char → Bool
  | [] => leads pat []
  | c :: rest => leads pat (c :: rest) || containsSub pat rest

/-- Value of a digit string read in base 10. -/
def natOfDigits (cs : List Char) : Nat := cs.foldl (fun n c => 10 * n + dval c) 0

/-- Fuel-driven Euclidean recursion, so that gcd values reduce by
computation inside the kernel. -/
def gcdAux : Nat → Nat → Nat → Nat
  | 0, _, n => n
  | fuel + 1, m, n => if m = 0 then n else gcdAux fuel (n % m) m

/-- Greatest common divisor via the fuel-driven recursion. -/
def gcdF (m n : Nat) : Nat := gcdAux (m + 1) m n

/-- A Python float as this program uses one: an exact nonnegative rational
in lowest terms.  The weight values come from decimal literals, are never
computed with, and are only stored in the mapping, so the exact decimal
value is a faithful model. -/
structure PyFloat where
  num : Nat
  den : Nat
deriving DecidableEq, Repr

/-- The value numer divided by ten-to-the-k, reduced to lowest terms. -/
def decValue (numer k : Nat) : PyFloat :=
  ⟨numer / gcdF numer (10 ^ k), 10 ^ k / gcdF numer (10 ^ k)⟩

/-- Translation of the Python float constructor restricted to digit/dot
strings (which is all the weight-group regex can produce): defined exactly
when there is at least one digit and at most one dot, giving the exact
decimal value. -/
def pyFloat? (cs : List Char) : Option PyFloat :=
  match cs.dropWhile (fun c => c != '.') with
  | [] => if cs ≠ [] ∧ cs.all isDigitC then some (decValue (natOfDigits cs) 0) else none
  | _ :: frac =>
    if ((cs.takeWhile (fun c => c != '.')) ≠ [] ∨ frac ≠ []) ∧
        ((cs.takeWhile (fun c => c != '.')).all isDigitC) ∧ frac.all isDigitC then
      some (decValue (natOfDigits ((cs.takeWhile (fun c => c != '.')) ++ frac)) frac.length)
    else none

/-- Word boundary to the left of position i. -/
def boundaryL (cs : List Char) (i : Nat) : Bool :=
  match i with
  | 0 => true
  | j + 1 =>
    match cs[j]? with
    | some c => !isWordC c
    | none => true

/-- Match of the word-bounded two-digit-colon-two-digit time pattern starting
at position i, returning the matched five characters. -/
def timeAt (cs : List Char) (i : Nat) : Option (List Char) :=
  match cs.drop i with
  | a :: b :: c :: d :: e :: rest =>
    if isDigitC a && isDigitC b && (c == ':') && isDigitC d && isDigitC e && boundaryL cs i &&
        (match rest with | [] => true | x :: _ => !isWordC x) then
      some [a, b, c, d, e]
    else none
  | _ => none

/-- Leftmost match of the time pattern, as found by re.search. -/
def searchTime (cs : List Char) : Option (List Char) :=
  (List.range cs.length).findSome? (timeAt cs)

/-- The digit-or-dot character class of the weight group. -/
def isNumDot (c : Char) : Bool := isDigitC c || c == '.'

/-- Match of the weight pattern (the marker word, one whitespace, a nonempty
greedy digit/dot run, then the kg suffix) starting at position i, returning
the captured digit/dot group.  Greedy matching with backtracking degenerates
to the maximal run because the kg suffix cannot start with a digit or dot. -/
def weightMatchAt (cs : List Char) (i : Nat) : Option (List Char) :=
  if leads weightWord (cs.drop i) then
    match (cs.drop i).drop 6 with
    | c :: rest =>
      if isWsC c then
        if (rest.takeWhile isNumDot) ≠ [] ∧ leads ['k', 'g'] (rest.dropWhile isNumDot) then
          some (rest.takeWhile isNumDot)
        else none
      else none
    | [] => none
  else none

/-- Leftmost match of the weight pattern, as found by re.search. -/
def searchWeight (cs : List Char) : Option (List Char) :=
  (List.range cs.length).findSome? (weightMatchAt cs)

/-- The only Python exception that can escape per-line processing: ValueError,
raised by float on a malformed group or by replace on an out-of-range time. -/
inductive PyErr
  | valueError
deriving DecidableEq, Repr

/-- Translation of parse_weight_entry from src/main.py.  When the line
contains the marker word and both regexes match, float is applied to the
captured group: an unparsable group raises ValueError (modelled as the error
branch); otherwise the matched time text and parsed weight are returned.
When either regex fails, or the marker word is absent, the result is the
no-entry value. -/
def parse_weight_entry (text : List Char) : Except PyErr (Option (List Char × PyFloat)) :=
  if containsSub weightWord text then
    match searchTime text, searchWeight text with
    | some t, some g =>
      match pyFloat? g with
      | some w => Except.ok (some (t, w))
      | none => Except.error PyErr.valueError
    | _, _ => Except.ok none
  else Except.ok none

/-- Hours of a matched time token, as computed by int on the part before the
colon (the token always has shape digit digit colon digit digit). -/
def hoursOf (t : List Char) : Nat :=
  match t with
  | a :: b :: _ => dval a * 10 + dval b
  | _ => 0

/-- Minutes of a matched time token, as computed by int on the part after the
colon. -/
def minutesOf (t : List Char) : Nat :=
  match t with
  | _ :: _ :: _ :: d :: e :: _ => dval d * 10 + dval e
  | _ => 0

/-- Translation of datetime.replace(hour=..., minute=...) on the values this
program builds (seconds already zero). -/
def withTime (d : PyDateTime) (h m : Nat) : PyDateTime := { d with hour := h, minute := m }

/-- The loop state of process_file: the carried current date and the dict
built so far. -/
structure PState where
  current_date : PyDateTime
  weight_data : List (PyDateTime × PyFloat)
deriving DecidableEq, Repr

/-- Python dict assignment: overwrite in place when the key is present
(keeping insertion order), append otherwise. -/
def dictSet (m : List (PyDateTime × PyFloat)) (k : PyDateTime) (v : PyFloat) : List (PyDateTime × PyFloat) :=
  if m.any (fun p => p.1 == k) then m.map (fun p => if p.1 == k then (k, v) else p)
  else m ++ [(k, v)]

/-- Removal of newline characters, the translation of replace on the line. -/
def stripNL (cs : List Char) : List Char := cs.filter (fun c => c != '\n')

/-- The date-classification half of the loop body: on a successful date parse
the current date is replaced, otherwise the state is unchanged. -/
def headerUpd (st : PState) (line : List Char) : PState :=
  match convert_to_datetime line with
  | some d => { st with current_date := d }
  | none => st

/-- The weight-recording half of the loop body: on a parsed entry the time is
split into hours and minutes and substituted into the current date by
replace, which raises ValueError when the hour exceeds 23 or the minute
exceeds 59; the resulting timestamp keys the weight into the dict. -/
def weightUpd (st : PState) (pr : Option (List Char × PyFloat)) : Except PyErr PState :=
  match pr with
  | none => Except.ok st
  | some (t, w) =>
    if hoursOf t ≤ 23 ∧ minutesOf t ≤ 59 then
      Except.ok ⟨withTime st.current_date (hoursOf t) (minutesOf t),
                  dictSet st.weight_data (withTime st.current_date (hoursOf t) (minutesOf t)) w⟩
    else Except.error PyErr.valueError

/-- One iteration of the loop in process_file: strip newlines, try the date
classification, then the weight classification.  A ValueError from either
float or replace propagates (process_file catches only file errors). -/
def stepLine (st : PState) (raw : List Char) : Except PyErr PState :=
  match parse_weight_entry (stripNL raw) with
  | Except.error e => Except.error e
  | Except.ok pr => weightUpd (headerUpd st (stripNL raw)) pr

/-- The whole line loop of process_file. -/
def processLines : PState → List (List Char) → Except PyErr PState
  | st, [] => Except.ok st
  | st, l :: ls =>
    match stepLine st l with
    | Except.ok st1 => processLines st1 ls
    | Except.error e => Except.error e

/-- datetime.min, the initial value of current_date. -/
def datetime_min : PyDateTime := ⟨1, 1, 1, 0, 0⟩

/-- The loop state at entry of process_file. -/
def initState : PState := ⟨datetime_min, []⟩

/-- The two diagnostics process_file can print. -/
inductive Diag
  | fileNotFound (name : String)
  | couldNotRead (name : String)
deriving DecidableEq, Repr

/-- Outcome of opening and reading the file: missing at open, unreadable at
open, or a sequence of yielded lines optionally terminated by a read error
(an IOError raised by the iterator after those lines). -/
inductive FileInput
  | notFound
  | openFail
  | content (lines : List (List Char)) (readFails : Bool)

/-- Observable result of process_file: the printed diagnostics and the
returned dict. -/
structure RunResult where
  printed : List Diag
  weight_data : List (PyDateTime × PyFloat)
deriving DecidableEq, Repr

/-- Translation of process_file from src/main.py.  FileNotFoundError and
IOError are caught and print their diagnostics, after which the function
falls through to return whatever weight_data holds at that point; a
ValueError from the loop body is not caught and propagates to the caller. -/
def process_file (name : String) (input : FileInput) : Except PyErr RunResult :=
  match input with
  | FileInput.notFound => Except.ok ⟨[Diag.fileNotFound name], []⟩
  | FileInput.openFail => Except.ok ⟨[Diag.couldNotRead name], []⟩
  | FileInput.content lines readFails =>
    match processLines initState lines with
    | Except.error e => Except.error e
    | Except.ok st =>
      if readFails then Except.ok ⟨[Diag.couldNotRead name], st.weight_data⟩
      else Except.ok ⟨[], st.weight_data⟩

/-- Behaviour of plot_weight_data relevant to control flow: fitting the
linear regression on an empty mapping raises ValueError in the numeric
library (zero samples); otherwise the plot is produced. -/
def plot_weight_data (m : List (PyDateTime × PyFloat)) : Except PyErr Unit :=
  if m.isEmpty then Except.error PyErr.valueError else Except.ok ()

/-- The hardcoded input path of main. -/
def mainFileName : String := "log/[PiyoLog]Nov.txt"

/-- Translation of main from src/main.py: process the fixed file, then plot.
The run exits with status 0 exactly when no exception escapes, i.e. when the
result is the ok branch. -/
def mainRun (input : FileInput) : Except PyErr (List Diag) :=
  match process_file mainFileName input with
  | Except.error e => Except.error e
  | Except.ok r =>
    match plot_weight_data r.weight_data with
    | Except.error e => Except.error e
    | Except.ok _ => Except.ok r.printed

/- Definitions used only to state the claims. -/

/-- Whether two given characters occur adjacently, in order, in the list. -/
def hasPair (a b : Char) : List Char → Bool
  | x :: y :: r => (x == a && y == b) || hasPair a b (y :: r)
  | _ => false

/-- Whether the list starts with the given character. -/
def headIs (cs : List Char) (b : Char) : Bool :=
  match cs with
  | c :: _ => c == b
  | [] => false

/-- A time-pattern match at position i whose value is a valid clock time. -/
def timeTokenValidAt (cs : List Char) (i : Nat) : Bool :=
  match timeAt cs i with
  | some t => decide (hoursOf t ≤ 23) && decide (minutesOf t ≤ 59)
  | none => false

/-- The line has some word-bounded time token that is a valid clock time. -/
def hasValidTimeToken (cs : List Char) : Bool :=
  (List.range cs.length).any (timeTokenValidAt cs)

/-- The line has some weight-pattern match whose captured group is a valid
float literal. -/
def hasValidWeightToken (cs : List Char) : Bool :=
  (List.range cs.length).any fun i =>
    match weightMatchAt cs i with
    | some g => (pyFloat? g).isSome
    | none => false

/-- Characterization of the lines whose processing cannot raise: whenever the
marker word is present and both regexes match, the captured group must be a
valid float literal and the matched time a valid clock time. -/
def lineSafe (line : List Char) : Bool :=
  match searchTime line, searchWeight line with
  | some t, some g =>
    if containsSub weightWord line then
      (pyFloat? g).isSome && decide (hoursOf t ≤ 23) && decide (minutesOf t ≤ 59)
    else true
  | _, _ => true

/-- Calendar-date part of a datetime. -/
def dateOf (d : PyDateTime) : Nat × Nat × Nat := (d.year, d.month, d.day)

/-- Date carried across one line: a date-header line replaces it, any other
line keeps it. -/
def dateUpd (d : PyDateTime) (raw : List Char) : PyDateTime :=
  match convert_to_datetime (stripNL raw) with
  | some d2 => d2
  | none => d

/-- The date established by the most recent date-header line of the list,
or datetime.min when the list has no header. -/
def currentHeaderDate (lines : List (List Char)) : PyDateTime :=
  lines.foldl dateUpd datetime_min

/-- Days elapsed since the proleptic Gregorian date year 1, January 1. -/
def dayNumber (y m d : Nat) : Nat :=
  365 * (y - 1) + ((y - 1) / 4 - (y - 1) / 100 + (y - 1) / 400) +
    (((List.range (m - 1)).map (fun i => daysInMonth y (i + 1))).sum) + (d - 1)

/-- Day of the week of a proleptic Gregorian date, with 0 denoting Monday
(year 1, January 1 was a Monday). -/
def dayOfWeek (y m d : Nat) : Nat := dayNumber y m d % 7


/- Auxiliary lemmas. -/

/-- Unfolding of hasPair over a cons cell. -/
theorem hasPair_cons (a b x : Char) (t : List Char) :
    hasPair a b (x :: t) = (((x == a) && headIs t b) || hasPair a b t) := by
  cases t with
  | nil => simp [hasPair, headIs]
  | cons y r => rfl

/-- An adjacent pair cannot start inside a block free of its first
character, so such a block can be skipped. -/
theorem hasPair_append_skip (a b : Char) (xs ys : List Char)
    (h : ∀ c ∈ xs, c ≠ a) : hasPair a b (xs ++ ys) = hasPair a b ys := by
  induction xs with
  | nil => rfl
  | cons x xs ih =>
    have hx : (x == a) = false := by
      have := h x (List.mem_cons_self x xs)
      simp [this]
    rw [List.cons_append, hasPair_cons, hx]
    simp [ih fun c hc => h c (List.mem_cons_of_mem x hc)]

/-- A pair in the tail is a pair in the whole list. -/
theorem hasPair_cons_of (a b x : Char) (t : List Char) (h : hasPair a b t = true) :
    hasPair a b (x :: t) = true := by
  rw [hasPair_cons, h]
  simp

/-- Destructuring a successful match of the marker word at the head. -/
theorem leads_weight_shape (l : List Char) (h : leads weightWord l = true) :
    ∃ r, l = 'W' :: 'e' :: 'i' :: 'g' :: 'h' :: 't' :: r := by
  cases l with
  | nil => simp [weightWord, leads] at h
  | cons c0 t0 =>
    cases t0 with
    | nil => simp [weightWord, leads] at h
    | cons c1 t1 =>
      cases t1 with
      | nil => simp [weightWord, leads] at h
      | cons c2 t2 =>
        cases t2 with
        | nil => simp [weightWord, leads] at h
        | cons c3 t3 =>
          cases t3 with
          | nil => simp [weightWord, leads] at h
          | cons c4 t4 =>
            cases t4 with
            | nil => simp [weightWord, leads] at h
            | cons c5 t5 =>
              simp only [weightWord, leads, Bool.and_eq_true, beq_iff_eq] at h
              obtain ⟨h0, h1, h2, h3, h4, h5, -⟩ := h
              subst h0; subst h1; subst h2; subst h3; subst h4; subst h5
              exact ⟨t5, rfl⟩

/-- A line containing the marker word contains the letter i immediately
followed by the letter g. -/
theorem containsSub_hasPair_ig (cs : List Char)
    (h : containsSub weightWord cs = true) : hasPair 'i' 'g' cs = true := by
  induction cs with
  | nil => simp [containsSub, weightWord, leads] at h
  | cons c rest ih =>
    rw [containsSub, Bool.or_eq_true] at h
    rcases h with h | h
    · obtain ⟨r, hr⟩ := leads_weight_shape _ h
      obtain ⟨rfl, rfl⟩ : c = 'W' ∧ rest = 'e' :: 'i' :: 'g' :: 'h' :: 't' :: r := by
        injection hr with h1 h2
        exact ⟨h1, h2⟩
      rw [hasPair, hasPair, hasPair]
      simp
    · exact hasPair_cons_of _ _ _ _ (ih h)

/-- Whitespace characters are not the letter i. -/
theorem isWsC_ne_i (c : Char) (h : isWsC c = true) : c ≠ 'i' := by
  intro hc
  subst hc
  exact absurd h (by decide)

/-- Digit characters are not the letter i. -/
theorem isDigitC_ne_i (c : Char) (h : isDigitC c = true) : c ≠ 'i' := by
  intro hc
  subst hc
  exact absurd h (by decide)

/-- A character matching a lowercase target other than i is not the
letter i. -/
theorem ci_ne (c t : Char) (h : ci c t = true) (ht : t ≠ 'i') : c ≠ 'i' := by
  intro hc
  subst hc
  rw [ci, beq_iff_eq, (by decide : lowc 'i' = 'i')] at h
  exact ht h.symm

/-- Two case-insensitive letter constraints with targets other than i force
the letters to differ from i. -/
theorem ciPair_no_i (a b x y : Char) (ha : ci a x = true) (hb : ci b y = true)
    (hx : x ≠ 'i') (hy : y ≠ 'i') : a ≠ 'i' ∧ b ≠ 'i' :=
  ⟨ci_ne a x ha hx, ci_ne b y hb hy⟩

/-- Three case-insensitive letter constraints with targets other than i. -/
theorem ciTriple_no_i (a b c x y z : Char) (h : (ci a x && ci b y && ci c z) = true)
    (hx : x ≠ 'i') (hy : y ≠ 'i') (hz : z ≠ 'i') : a ≠ 'i' ∧ b ≠ 'i' ∧ c ≠ 'i' := by
  rw [Bool.and_eq_true, Bool.and_eq_true] at h
  exact ⟨ci_ne a x h.1.1 hx, ci_ne b y h.1.2 hy, ci_ne c z h.2 hz⟩

/-- The first two letters of a weekday abbreviation are never the letter i. -/
theorem weekdayOK_no_i (a b c : Char) (h : weekdayOK a b c = true) :
    a ≠ 'i' ∧ b ≠ 'i' := by
  rw [weekdayOK] at h
  simp only [Bool.or_eq_true, Bool.and_eq_true] at h
  rcases h with ((((((⟨⟨h1, h2⟩, -⟩ | ⟨⟨h1, h2⟩, -⟩) | ⟨⟨h1, h2⟩, -⟩) | ⟨⟨h1, h2⟩, -⟩) |
      ⟨⟨h1, h2⟩, -⟩) | ⟨⟨h1, h2⟩, -⟩) | ⟨⟨h1, h2⟩, -⟩) <;>
    exact ciPair_no_i a b _ _ h1 h2 (by decide) (by decide)

/-- A successful lookup in a table whose letters avoid the letter i forces
the looked-up characters to avoid it too. -/
theorem monthLookup_no_i (a b c : Char) (k mo : Nat) (ts : List (Char × Char × Char))
    (hts : ∀ t ∈ ts, t.1 ≠ 'i' ∧ t.2.1 ≠ 'i' ∧ t.2.2 ≠ 'i')
    (h : monthLookup k ts a b c = some mo) : a ≠ 'i' ∧ b ≠ 'i' ∧ c ≠ 'i' := by
  induction ts generalizing k with
  | nil => cases h
  | cons t ts ih =>
    rw [monthLookup] at h
    by_cases hc : (ci a t.1 && ci b t.2.1 && ci c t.2.2) = true
    · obtain ⟨h1, h2, h3⟩ := hts t (List.mem_cons_self t ts)
      exact ciTriple_no_i a b c _ _ _ hc h1 h2 h3
    · rw [if_neg hc] at h
      exact ih (k + 1) (fun u hu => hts u (List.mem_cons_of_mem t hu)) h

/-- No letter of a month abbreviation is the letter i. -/
theorem monthNum_no_i (a b c : Char) (mo : Nat) (h : monthNum a b c = some mo) :
    a ≠ 'i' ∧ b ≠ 'i' ∧ c ≠ 'i' :=
  monthLookup_no_i a b c 1 mo monthsTbl (by decide) h

/-- A list free of the first character of a pair has no such pair. -/
theorem hasPair_all_ne (a b : Char) (xs : List Char) (h : ∀ c ∈ xs, c ≠ a) :
    hasPair a b xs = false := by
  have := hasPair_append_skip a b xs [] h
  rw [List.append_nil] at this
  rw [this]
  rfl

/-- A successful whitespace skip splits off a whitespace block. -/
theorem skipWs1_decomp (cs r : List Char) (h : skipWs1 cs = some r) :
    ∃ w, cs = w ++ r ∧ ∀ c ∈ w, isWsC c = true := by
  cases cs with
  | nil => cases h
  | cons c rest =>
    rw [skipWs1] at h
    by_cases hw : isWsC c = true
    · rw [if_pos hw] at h
      injection h with h
      refine ⟨c :: rest.takeWhile isWsC, ?_, ?_⟩
      · rw [← h, List.cons_append, List.takeWhile_append_dropWhile]
      · intro x hx
        rcases List.mem_cons.mp hx with rfl | hx
        · exact hw
        · exact List.mem_takeWhile_imp hx
    · rw [if_neg hw] at h
      cases h

/-- A successful day parse splits off a nonempty digit block. -/
theorem parseDay_decomp (cs : List Char) (dy : Nat) (rest : List Char)
    (h : parseDay cs = some (dy, rest)) :
    ∃ dd, cs = dd ++ rest ∧ ∀ c ∈ dd, isDigitC c = true := by
  cases cs with
  | nil => cases h
  | cons a t =>
    cases t with
    | nil =>
      rw [parseDay] at h
      by_cases h1 : (isDigitC a && decide (1 ≤ dval a)) = true
      · rw [if_pos h1] at h
        rw [Bool.and_eq_true] at h1
        simp only [Option.some.injEq, Prod.mk.injEq] at h
        obtain ⟨-, rfl⟩ := h
        exact ⟨[a], rfl, by intro c hc; simp at hc; subst hc; exact h1.1⟩
      · rw [if_neg h1] at h
        cases h
    | cons b t =>
      rw [parseDay] at h
      by_cases h1 : (isDigitC a && isDigitC b) = true
      · rw [if_pos h1] at h
        rw [Bool.and_eq_true] at h1
        by_cases h2 : (1 ≤ dval a * 10 + dval b ∧ dval a * 10 + dval b ≤ 31)
        · rw [if_pos h2] at h
          simp only [Option.some.injEq, Prod.mk.injEq] at h
          obtain ⟨-, rfl⟩ := h
          exact ⟨[a, b], rfl, by intro c hc; simp at hc; rcases hc with rfl | rfl
                                 · exact h1.1
                                 · exact h1.2⟩
        · rw [if_neg h2] at h
          cases h
      · rw [if_neg h1] at h
        by_cases h3 : (isDigitC a && decide (1 ≤ dval a)) = true
        · rw [if_pos h3] at h
          rw [Bool.and_eq_true] at h3
          simp only [Option.some.injEq, Prod.mk.injEq] at h
          obtain ⟨-, rfl⟩ := h
          exact ⟨[a], rfl, by intro c hc; simp at hc; subst hc; exact h3.1⟩
        · rw [if_neg h3] at h
          cases h

/-- A successful year parse is exactly four digit characters. -/
theorem parseYear4_digits (cs : List Char) (yr : Nat) (h : parseYear4 cs = some yr) :
    ∃ y1 y2 y3 y4, cs = [y1, y2, y3, y4] ∧ ∀ c ∈ cs, isDigitC c = true := by
  rcases cs with _ | ⟨y1, _ | ⟨y2, _ | ⟨y3, _ | ⟨y4, _ | ⟨y5, t⟩⟩⟩⟩⟩
  · cases h
  · cases h
  · cases h
  · cases h
  · rw [parseYear4] at h
    by_cases hd : (isDigitC y1 && isDigitC y2 && isDigitC y3 && isDigitC y4) = true
    · simp only [Bool.and_eq_true] at hd
      refine ⟨y1, y2, y3, y4, rfl, ?_⟩
      intro c hc
      simp at hc
      rcases hc with rfl | rfl | rfl | rfl
      · exact hd.1.1.1
      · exact hd.1.1.2
      · exact hd.1.2
      · exact hd.2
    · rw [if_neg hd] at h
      cases h
  · cases h

/-- The text matched after the day field carries no adjacent i-g pair, and
the resulting datetime is at midnight. -/
theorem afterDay_elim (mo dy : Nat) (cs : List Char) (d : PyDateTime)
    (h : afterDay mo dy cs = some d) :
    hasPair 'i' 'g' cs = false ∧ d.hour = 0 ∧ d.minute = 0 := by
  cases cs with
  | nil => cases h
  | cons c r =>
    rw [afterDay] at h
    by_cases hc : (c == ',') = true
    · rw [if_pos hc] at h
      rw [Option.bind_eq_some] at h
      obtain ⟨r7, hskip, h⟩ := h
      rw [Option.bind_eq_some] at h
      obtain ⟨yr, hyear, h⟩ := h
      by_cases hv : (1 ≤ yr ∧ dy ≤ daysInMonth yr mo)
      · rw [if_pos hv] at h
        injection h with h
        subst h
        obtain ⟨w, rfl, hw⟩ := skipWs1_decomp r r7 hskip
        obtain ⟨y1, y2, y3, y4, rfl, hy⟩ := parseYear4_digits r7 yr hyear
        have hcomma : c = ',' := by rwa [beq_iff_eq] at hc
        subst hcomma
        refine ⟨?_, rfl, rfl⟩
        rw [show (',' :: (w ++ [y1, y2, y3, y4])) = [','] ++ (w ++ [y1, y2, y3, y4]) from rfl]
        rw [hasPair_append_skip 'i' 'g' [','] _ (by intro x hx; simp at hx; subst hx; decide)]
        rw [hasPair_append_skip 'i' 'g' w _ (fun x hx => isWsC_ne_i x (hw x hx))]
        exact hasPair_all_ne 'i' 'g' _ (fun x hx => isDigitC_ne_i x (hy x hx))
      · rw [if_neg hv] at h
        cases h
    · rw [if_neg hc] at h
      cases h

/-- The text matched after the month name carries no adjacent i-g pair. -/
theorem afterMonth_elim (mo : Nat) (cs : List Char) (d : PyDateTime)
    (h : afterMonth mo cs = some d) :
    hasPair 'i' 'g' cs = false ∧ d.hour = 0 ∧ d.minute = 0 := by
  rw [afterMonth, Option.bind_eq_some] at h
  obtain ⟨r4, hskip, h⟩ := h
  rw [Option.bind_eq_some] at h
  obtain ⟨p, hday, h⟩ := h
  obtain ⟨hpr, hh, hm⟩ := afterDay_elim mo p.1 p.2 d h
  obtain ⟨w, rfl, hw⟩ := skipWs1_decomp cs r4 hskip
  obtain ⟨dd, hr4, hdd⟩ := parseDay_decomp r4 p.1 p.2 hday
  subst hr4
  refine ⟨?_, hh, hm⟩
  rw [hasPair_append_skip 'i' 'g' w _ (fun x hx => isWsC_ne_i x (hw x hx))]
  rw [hasPair_append_skip 'i' 'g' dd _ (fun x hx => isDigitC_ne_i x (hdd x hx))]
  exact hpr

/-- The text matched after the weekday and comma carries no adjacent i-g
pair. -/
theorem afterWeekday_elim (cs : List Char) (d : PyDateTime)
    (h : afterWeekday cs = some d) :
    hasPair 'i' 'g' cs = false ∧ d.hour = 0 ∧ d.minute = 0 := by
  rw [afterWeekday, Option.bind_eq_some] at h
  obtain ⟨r2, hskip, h⟩ := h
  obtain ⟨w, rfl, hw⟩ := skipWs1_decomp cs r2 hskip
  rcases r2 with _ | ⟨m1, _ | ⟨m2, _ | ⟨m3, r3⟩⟩⟩
  · cases h
  · cases h
  · cases h
  · rw [Option.bind_eq_some] at h
    obtain ⟨mo, hmo, h⟩ := h
    obtain ⟨hpr, hh, hm⟩ := afterMonth_elim mo r3 d h
    obtain ⟨hm1, hm2, hm3⟩ := monthNum_no_i m1 m2 m3 mo hmo
    refine ⟨?_, hh, hm⟩
    rw [hasPair_append_skip 'i' 'g' w _ (fun x hx => isWsC_ne_i x (hw x hx))]
    rw [show m1 :: m2 :: m3 :: r3 = [m1, m2, m3] ++ r3 from rfl]
    rw [hasPair_append_skip 'i' 'g' [m1, m2, m3] _ ?_]
    · exact hpr
    · intro x hx
      simp at hx
      rcases hx with rfl | rfl | rfl <;> assumption

/-- A line parsed as a date header carries no adjacent i-g pair, and the
parsed datetime is at midnight. -/
theorem convert_elim (cs : List Char) (d : PyDateTime)
    (h : convert_to_datetime cs = some d) :
    hasPair 'i' 'g' cs = false ∧ d.hour = 0 ∧ d.minute = 0 := by
  rcases cs with _ | ⟨a1, _ | ⟨a2, _ | ⟨a3, _ | ⟨c4, r1⟩⟩⟩⟩
  · cases h
  · cases h
  · cases h
  · cases h
  · rw [convert_to_datetime] at h
    by_cases hok : (weekdayOK a1 a2 a3 && (c4 == ',')) = true
    · rw [if_pos hok] at h
      rw [Bool.and_eq_true] at hok
      obtain ⟨hwd, hc4⟩ := hok
      have hc4' : c4 = ',' := by rwa [beq_iff_eq] at hc4
      subst hc4'
      obtain ⟨hpr, hh, hm⟩ := afterWeekday_elim r1 d h
      obtain ⟨ha1, ha2⟩ := weekdayOK_no_i a1 a2 a3 hwd
      refine ⟨?_, hh, hm⟩
      rw [show a1 :: a2 :: a3 :: ',' :: r1 = [a1, a2] ++ (a3 :: ',' :: r1) from rfl]
      rw [hasPair_append_skip 'i' 'g' [a1, a2] _
        (by intro x hx; simp at hx; rcases hx with rfl | rfl <;> assumption)]
      rw [hasPair_cons]
      rw [show headIs (',' :: r1) 'g' = false from rfl, Bool.and_false, Bool.false_or]
      rw [show (',' :: r1) = [','] ++ r1 from rfl]
      rw [hasPair_append_skip 'i' 'g' [','] _ (by intro x hx; simp at hx; subst hx; decide)]
      exact hpr
    · rw [if_neg hok] at h
      cases h

/-- A line parsed as a date header does not contain the marker word. -/
theorem convert_no_weightWord (cs : List Char) (d : PyDateTime)
    (h : convert_to_datetime cs = some d) : containsSub weightWord cs = false := by
  cases hcs : containsSub weightWord cs with
  | false => rfl
  | true =>
    have h1 := containsSub_hasPair_ig cs hcs
    have h2 := (convert_elim cs d h).1
    rw [h1] at h2
    cases h2

/-- A line containing the marker word never parses as a date header. -/
theorem convert_none_of_contains (cs : List Char) (h : containsSub weightWord cs = true) :
    convert_to_datetime cs = none := by
  cases hcv : convert_to_datetime cs with
  | none => rfl
  | some d =>
    have h2 := convert_no_weightWord cs d hcv
    rw [h] at h2
    cases h2

/-- A line without the marker word parses to no weight entry. -/
theorem pwe_no_contains (cs : List Char) (h : containsSub weightWord cs = false) :
    parse_weight_entry cs = Except.ok none := by
  rw [parse_weight_entry, h]
  rfl

/-- A parsed weight entry implies the marker word is present. -/
theorem pwe_contains (cs t : List Char) (w : PyFloat)
    (h : parse_weight_entry cs = Except.ok (some (t, w))) :
    containsSub weightWord cs = true := by
  cases hc : containsSub weightWord cs with
  | true => rfl
  | false =>
    rw [pwe_no_contains cs hc] at h
    simp at h

/-- Destructuring a parsed weight entry: both searches succeeded and the
captured group parsed as a float. -/
theorem pwe_some_elim (cs t : List Char) (w : PyFloat)
    (h : parse_weight_entry cs = Except.ok (some (t, w))) :
    searchTime cs = some t ∧ ∃ g, searchWeight cs = some g ∧ pyFloat? g = some w := by
  have hc := pwe_contains cs t w h
  rw [parse_weight_entry, hc] at h
  simp only [if_true] at h
  split at h
  next t' g hst hsw =>
    split at h
    next w' hpf =>
      simp only [Except.ok.injEq, Option.some.injEq, Prod.mk.injEq] at h
      obtain ⟨rfl, rfl⟩ := h
      exact ⟨hst, g, hsw, hpf⟩
    next hpf => cases h
  next hother => simp at h

/-- Destructuring a ValueError from parsing a weight entry: the marker word
is present, both searches succeeded, and the captured group is not a valid
float literal. -/
theorem pwe_error_elim (cs : List Char) (e : PyErr)
    (h : parse_weight_entry cs = Except.error e) :
    containsSub weightWord cs = true ∧
      ∃ t g, searchTime cs = some t ∧ searchWeight cs = some g ∧ pyFloat? g = none := by
  cases hc : containsSub weightWord cs with
  | false =>
    rw [pwe_no_contains cs hc] at h
    cases h
  | true =>
    refine ⟨rfl, ?_⟩
    rw [parse_weight_entry, hc] at h
    simp only [if_true] at h
    split at h
    next t g hst hsw =>
      split at h
      next w hpf => cases h
      next hpf => exact ⟨t, g, hst, hsw, hpf⟩
    next hother => cases h

/-- A non-header line leaves the carried date unchanged. -/
theorem headerUpd_id (st : PState) (line : List Char)
    (h : convert_to_datetime line = none) : headerUpd st line = st := by
  rw [headerUpd, h]

/-- A header line replaces the carried date. -/
theorem headerUpd_set (st : PState) (line : List Char) (d : PyDateTime)
    (h : convert_to_datetime line = some d) :
    headerUpd st line = ⟨d, st.weight_data⟩ := by
  rw [headerUpd, h]

/-- Evaluation of one loop iteration on a line whose weight entry parses
with a valid clock time: the entry is recorded under the carried date
combined with the matched time, and the carried date takes that time. -/
theorem step_weight_ok (st : PState) (raw t : List Char) (w : PyFloat)
    (hp : parse_weight_entry (stripNL raw) = Except.ok (some (t, w)))
    (hh : hoursOf t ≤ 23) (hm : minutesOf t ≤ 59) :
    stepLine st raw = Except.ok
      ⟨withTime st.current_date (hoursOf t) (minutesOf t),
        dictSet st.weight_data (withTime st.current_date (hoursOf t) (minutesOf t)) w⟩ := by
  simp only [stepLine, hp]
  rw [headerUpd_id st _ (convert_none_of_contains _ (pwe_contains _ t w hp))]
  simp only [weightUpd]
  rw [if_pos ⟨hh, hm⟩]

/-- Evaluation of one loop iteration on a line whose weight entry parses
with an out-of-range clock time: replace raises ValueError. -/
theorem step_weight_err (st : PState) (raw t : List Char) (w : PyFloat)
    (hp : parse_weight_entry (stripNL raw) = Except.ok (some (t, w)))
    (hr : ¬(hoursOf t ≤ 23 ∧ minutesOf t ≤ 59)) :
    stepLine st raw = Except.error PyErr.valueError := by
  simp only [stepLine, hp, weightUpd]
  rw [if_neg hr]

/-- A ValueError from the weight parse propagates out of the iteration. -/
theorem step_parse_err (st : PState) (raw : List Char) (e : PyErr)
    (hp : parse_weight_entry (stripNL raw) = Except.error e) :
    stepLine st raw = Except.error e := by
  simp only [stepLine, hp]

/-- A line with no parsed weight entry only performs the date
classification. -/
theorem step_no_entry (st : PState) (raw : List Char)
    (hp : parse_weight_entry (stripNL raw) = Except.ok none) :
    stepLine st raw = Except.ok (headerUpd st (stripNL raw)) := by
  simp only [stepLine, hp, weightUpd]

/-- Evaluation of one loop iteration on a date-header line: the carried
date is replaced (at midnight) and nothing is recorded. -/
theorem step_header (st : PState) (raw : List Char) (d : PyDateTime)
    (hconv : convert_to_datetime (stripNL raw) = some d) :
    stepLine st raw = Except.ok ⟨d, st.weight_data⟩ := by
  rw [step_no_entry st raw (pwe_no_contains _ (convert_no_weightWord _ d hconv))]
  rw [headerUpd_set st _ d hconv]

/-- Evaluation of one loop iteration on a line that is neither a header nor
carries a parsed weight entry: the state is unchanged. -/
theorem step_ignored (st : PState) (raw : List Char)
    (hconv : convert_to_datetime (stripNL raw) = none)
    (hp : parse_weight_entry (stripNL raw) = Except.ok none) :
    stepLine st raw = Except.ok st := by
  rw [step_no_entry st raw hp, headerUpd_id st _ hconv]

/-- Destructuring the loop over a first line that succeeded. -/
theorem processLines_cons_ok (st st2 : PState) (l : List Char) (ls : List (List Char))
    (h : processLines st (l :: ls) = Except.ok st2) :
    ∃ st1, stepLine st l = Except.ok st1 ∧ processLines st1 ls = Except.ok st2 := by
  rw [processLines] at h
  rcases hs : stepLine st l with e | st1
  · rw [hs] at h
    cases h
  · rw [hs] at h
    exact ⟨st1, rfl, h⟩

/-- Substituting a time into a datetime keeps its calendar date. -/
theorem dateOf_withTime (d : PyDateTime) (h m : Nat) : dateOf (withTime d h m) = dateOf d := rfl

/-- One successful loop iteration moves the calendar-date part of the
carried date exactly as the header fold does. -/
theorem step_dateOf (st st2 : PState) (raw : List Char)
    (h : stepLine st raw = Except.ok st2) :
    dateOf st2.current_date = dateOf (dateUpd st.current_date raw) := by
  rcases hp : parse_weight_entry (stripNL raw) with e | pr
  · rw [step_parse_err st raw e hp] at h
    cases h
  · rcases pr with _ | ⟨t, w⟩
    · rw [step_no_entry st raw hp] at h
      injection h with h
      subst h
      rw [dateUpd, headerUpd]
      rcases hcv : convert_to_datetime (stripNL raw) with _ | d <;> rfl
    · by_cases hr : (hoursOf t ≤ 23 ∧ minutesOf t ≤ 59)
      · rw [step_weight_ok st raw t w hp hr.1 hr.2] at h
        injection h with h
        subst h
        rw [dateUpd, convert_none_of_contains _ (pwe_contains _ t w hp)]
        exact dateOf_withTime st.current_date _ _
      · rw [step_weight_err st raw t w hp hr] at h
        cases h

/-- The header fold only looks at the calendar-date part of its seed. -/
theorem foldl_dateUpd_congr (ls : List (List Char)) (d1 d2 : PyDateTime)
    (h : dateOf d1 = dateOf d2) :
    dateOf (ls.foldl dateUpd d1) = dateOf (ls.foldl dateUpd d2) := by
  induction ls generalizing d1 d2 with
  | nil => exact h
  | cons l ls ih =>
    rw [List.foldl_cons, List.foldl_cons]
    apply ih
    rw [dateUpd, dateUpd]
    rcases hcv : convert_to_datetime (stripNL l) with _ | d
    · exact h
    · rfl

/-- Invariant of the loop: the calendar-date part of the carried date is the
one established by the most recent header among the lines processed so far
(the seed when there is none). -/
theorem processLines_dateOf (ls : List (List Char)) (st0 st : PState)
    (h : processLines st0 ls = Except.ok st) :
    dateOf st.current_date = dateOf (ls.foldl dateUpd st0.current_date) := by
  induction ls generalizing st0 with
  | nil =>
    injection h with h
    subst h
    rfl
  | cons l ls ih =>
    obtain ⟨st1, h1, h2⟩ := processLines_cons_ok st0 st l ls h
    rw [List.foldl_cons]
    rw [ih st1 h2]
    exact foldl_dateUpd_congr ls st1.current_date (dateUpd st0.current_date l)
      (step_dateOf st0 st1 l h1)

/-- Looking up a key right after writing it yields the written value, for a
dict where the key is already present (map branch). -/
theorem lookup_map_overwrite (k : PyDateTime) (v : PyFloat)
    (m : List (PyDateTime × PyFloat)) (hany : (m.any fun p => p.1 == k) = true) :
    List.lookup k (m.map fun p => if p.1 == k then (k, v) else p) = some v := by
  induction m with
  | nil => cases hany
  | cons p m ih =>
    rw [List.any_cons, Bool.or_eq_true] at hany
    rw [List.map_cons]
    cases hpk : (p.1 == k) with
    | true =>
      rw [if_pos rfl]
      rw [List.lookup]
      simp
    | false =>
      rw [if_neg Bool.false_ne_true]
      rw [List.lookup]
      have hkp : (k == p.1) = false := by
        rw [beq_eq_false_iff_ne] at hpk ⊢
        exact fun hk => hpk hk.symm
      rw [hkp]
      rcases hany with hany | hany
      · rw [hpk] at hany
        cases hany
      · exact ih hany

/-- Looking up a key right after appending it when it was absent. -/
theorem lookup_append_new (k : PyDateTime) (v : PyFloat)
    (m : List (PyDateTime × PyFloat)) (hany : (m.any fun p => p.1 == k) = false) :
    List.lookup k (m ++ [(k, v)]) = some v := by
  induction m with
  | nil =>
    rw [List.nil_append, List.lookup]
    simp
  | cons p m ih =>
    rw [List.any_cons, Bool.or_eq_false_iff] at hany
    rw [List.cons_append, List.lookup]
    have hkp : (k == p.1) = false := by
      rw [beq_eq_false_iff_ne] at hany ⊢
      exact fun hk => hany.1 hk.symm
    rw [hkp]
    exact ih hany.2

/-- Writing a key into the dict makes its lookup yield the written value:
the later of two writes to the same key wins. -/
theorem lookup_dictSet (m : List (PyDateTime × PyFloat)) (k : PyDateTime) (v : PyFloat) :
    List.lookup k (dictSet m k v) = some v := by
  rw [dictSet]
  cases hany : (m.any fun p => p.1 == k) with
  | true =>
    rw [if_pos rfl]
    exact lookup_map_overwrite k v m hany
  | false =>
    rw [if_neg Bool.false_ne_true]
    exact lookup_append_new k v m hany

/-- Forward evaluation of the weight parse when everything matches. -/
theorem pwe_eval_some (cs t g : List Char) (w : PyFloat)
    (hc : containsSub weightWord cs = true) (hst : searchTime cs = some t)
    (hsw : searchWeight cs = some g) (hpf : pyFloat? g = some w) :
    parse_weight_entry cs = Except.ok (some (t, w)) := by
  rw [parse_weight_entry, hc]
  simp only [if_true, hst, hsw, hpf]

/-- Forward evaluation of the weight parse when the captured group is not a
valid float literal: float raises ValueError. -/
theorem pwe_eval_err (cs t g : List Char)
    (hc : containsSub weightWord cs = true) (hst : searchTime cs = some t)
    (hsw : searchWeight cs = some g) (hpf : pyFloat? g = none) :
    parse_weight_entry cs = Except.error PyErr.valueError := by
  rw [parse_weight_entry, hc]
  simp only [if_true, hst, hsw, hpf]

/- Claim theorems. -/

/-- C1 (amended): for every line containing the marker word on which both
regex searches succeed, whose matched time token is a valid clock time and
whose captured weight group is a valid float literal (that is, the weight
entry parses), processing the line records an Observation mapping the
current date combined with the matched time to the parsed weight; every
marker-word line on which either regex search fails produces no Observation
and leaves the state unchanged. -/
theorem c1_per_line_recording :
    (∀ (st : PState) (raw t : List Char) (w : PyFloat),
      parse_weight_entry (stripNL raw) = Except.ok (some (t, w)) →
      hoursOf t ≤ 23 → minutesOf t ≤ 59 →
      stepLine st raw = Except.ok
        ⟨withTime st.current_date (hoursOf t) (minutesOf t),
          dictSet st.weight_data (withTime st.current_date (hoursOf t) (minutesOf t)) w⟩) ∧
    (∀ (st : PState) (raw : List Char),
      containsSub weightWord (stripNL raw) = true →
      parse_weight_entry (stripNL raw) = Except.ok none →
      stepLine st raw = Except.ok st) := by
  constructor
  · intro st raw t w hp hh hm
    exact step_weight_ok st raw t w hp hh hm
  · intro st raw hc hp
    exact step_ignored st raw (convert_none_of_contains _ hc) hp

/-- C1 (counterexample to the claim as stated): this line contains the
marker word, contains a valid time token (06:00) and a valid weight token
(70.5), yet process_file records nothing and instead raises ValueError,
because the leftmost time-pattern match is 25:00 and replace rejects
hour 25. -/
theorem c1_counterexample :
    containsSub weightWord ("25:00 06:00 Weight 70.5kg".toList) = true ∧
    hasValidTimeToken ("25:00 06:00 Weight 70.5kg".toList) = true ∧
    hasValidWeightToken ("25:00 06:00 Weight 70.5kg".toList) = true ∧
    process_file "log.txt"
        (FileInput.content ["25:00 06:00 Weight 70.5kg".toList] false) =
      Except.error PyErr.valueError :=
  ⟨by decide, by decide, by decide, rfl⟩

/-- C1 witness: the recording branch on a concrete valid line. -/
theorem c1_witness :
    stepLine ⟨⟨2024, 11, 6, 0, 0⟩, []⟩ ("06:00 Weight 70.5kg".toList) =
      Except.ok ⟨⟨2024, 11, 6, 6, 0⟩, [(⟨2024, 11, 6, 6, 0⟩, ⟨141, 2⟩)]⟩ :=
  c1_per_line_recording.1 ⟨⟨2024, 11, 6, 0, 0⟩, []⟩ ("06:00 Weight 70.5kg".toList)
    ("06:00".toList) ⟨141, 2⟩ rfl (by decide) (by decide)

/-- C2: every Observation recorded by a weight line carries exactly the
calendar date of the most recent date-header line strictly preceding it
(weight lines never parse as headers, so the header fold over the preceding
lines alone decides the date), and the fold starts from the minimal sentinel
datetime year 1, month 1, day 1. -/
theorem c2_date_from_last_header :
    (∀ (pfx : List (List Char)) (raw t : List Char) (st : PState) (w : PyFloat),
      processLines initState pfx = Except.ok st →
      parse_weight_entry (stripNL raw) = Except.ok (some (t, w)) →
      hoursOf t ≤ 23 → minutesOf t ≤ 59 →
      ∃ k, stepLine st raw = Except.ok ⟨k, dictSet st.weight_data k w⟩ ∧
        dateOf k = dateOf (currentHeaderDate pfx) ∧
        k.hour = hoursOf t ∧ k.minute = minutesOf t) ∧
    currentHeaderDate [] = ⟨1, 1, 1, 0, 0⟩ := by
  constructor
  · intro pfx raw t st w hpl hp hh hm
    refine ⟨withTime st.current_date (hoursOf t) (minutesOf t),
      step_weight_ok st raw t w hp hh hm, ?_, rfl, rfl⟩
    rw [dateOf_withTime]
    rw [processLines_dateOf pfx initState st hpl]
    rfl
  · rfl

/-- C2 witness: the observation recorded after one concrete header takes
that header's calendar date. -/
theorem c2_witness :
    ∃ k, stepLine ⟨⟨2024, 11, 6, 0, 0⟩, []⟩ ("06:00 Weight 70.5kg".toList) =
        Except.ok ⟨k, dictSet [] k ⟨141, 2⟩⟩ ∧
      dateOf k = dateOf (currentHeaderDate ["Wed, Nov 06, 2024".toList]) ∧
      k.hour = 6 ∧ k.minute = 0 :=
  c2_date_from_last_header.1 ["Wed, Nov 06, 2024".toList] ("06:00 Weight 70.5kg".toList)
    ("06:00".toList) ⟨⟨2024, 11, 6, 0, 0⟩, []⟩ ⟨141, 2⟩ rfl rfl (by decide) (by decide)

/-- C3: writing a timestamp into the mapping makes its lookup yield the
written weight (last write wins), and the three-line example from the spec
yields exactly the single entry 2024-11-06 06:00 mapped to 71.0. -/
theorem c3_overwrite_last_wins :
    (∀ (m : List (PyDateTime × PyFloat)) (k : PyDateTime) (v : PyFloat),
      List.lookup k (dictSet m k v) = some v) ∧
    (∀ name : String,
      process_file name (FileInput.content
          ["Wed, Nov 06, 2024".toList, "06:00 Weight 70.5kg".toList,
            "06:00 Weight 71.0kg".toList] false) =
        Except.ok ⟨[], [(⟨2024, 11, 6, 6, 0⟩, ⟨71, 1⟩)]⟩) :=
  ⟨lookup_dictSet, fun _ => rfl⟩

/-- C5: a missing file prints exactly the file-not-found diagnostic, returns
the empty mapping, and raises nothing. -/
theorem c5_file_not_found (name : String) :
    process_file name FileInput.notFound =
      Except.ok ⟨[Diag.fileNotFound name], []⟩ := rfl

/-- C4 (amended): per-line processing succeeds exactly on safe lines: a
line can only raise when the marker word is present, both regexes match,
and the captured group is not a valid float literal or the matched time is
out of clock range (then float or replace raises ValueError); lines
matching neither classification, including partial date matches and weight
patterns that fail to match (for example a missing kg suffix), are silently
ignored with the state unchanged. -/
theorem c4_no_raise_characterization :
    (∀ (st : PState) (raw : List Char),
      (∃ st2, stepLine st raw = Except.ok st2) ↔ lineSafe (stripNL raw) = true) ∧
    (∀ (st : PState) (raw : List Char),
      convert_to_datetime (stripNL raw) = none →
      parse_weight_entry (stripNL raw) = Except.ok none →
      stepLine st raw = Except.ok st) := by
  constructor
  · intro st raw
    constructor
    · rintro ⟨st2, h2⟩
      rcases hst : searchTime (stripNL raw) with _ | t
      · simp [lineSafe, hst]
      · rcases hsw : searchWeight (stripNL raw) with _ | g
        · simp [lineSafe, hst, hsw]
        · cases hc : containsSub weightWord (stripNL raw) with
          | false => simp [lineSafe, hst, hsw, hc]
          | true =>
            rcases hpf : pyFloat? g with _ | w
            · rw [step_parse_err st raw PyErr.valueError
                (pwe_eval_err _ t g hc hst hsw hpf)] at h2
              cases h2
            · by_cases h23 : (hoursOf t ≤ 23 ∧ minutesOf t ≤ 59)
              · simp [lineSafe, hst, hsw, hc, hpf, h23.1, h23.2]
              · rw [step_weight_err st raw t w
                  (pwe_eval_some _ t g w hc hst hsw hpf) h23] at h2
                cases h2
    · intro hsafe
      rcases hp : parse_weight_entry (stripNL raw) with e | pr
      · obtain ⟨hc, t, g, hst, hsw, hpf⟩ := pwe_error_elim _ e hp
        simp [lineSafe, hst, hsw, hc, hpf] at hsafe
      · rcases pr with _ | ⟨t, w⟩
        · exact ⟨_, step_no_entry st raw hp⟩
        · by_cases h23 : (hoursOf t ≤ 23 ∧ minutesOf t ≤ 59)
          · exact ⟨_, step_weight_ok st raw t w hp h23.1 h23.2⟩
          · obtain ⟨hst, g, hsw, hpf⟩ := pwe_some_elim _ t w hp
            have hc := pwe_contains _ t w hp
            simp [lineSafe, hst, hsw, hc, hpf] at hsafe
            exact absurd hsafe h23
  · intro st raw hconv hp
    exact step_ignored st raw hconv hp

/-- C4 (counterexample to the claim as stated): a line with a malformed
weight suffix on which both regexes still match makes float raise
ValueError, which process_file does not catch. -/
theorem c4_counterexample :
    process_file "log.txt" (FileInput.content ["12:00 Weight 1..5kg".toList] false) =
      Except.error PyErr.valueError := rfl

/-- C4 witness: a line matching neither classification is ignored. -/
theorem c4_witness : stepLine initState ("hello".toList) = Except.ok initState :=
  c4_no_raise_characterization.2 initState ("hello".toList) rfl rfl

/-- C6 (amended): a valid date-header line sets the carried date to exactly
that calendar date with the time reset to midnight, and the calendar-date
part persists across subsequent non-header lines; the time-of-day part does
not persist, since a recorded weight entry overwrites the carried hour and
minute. -/
theorem c6_header_sets_date_midnight :
    (∀ (st : PState) (raw : List Char) (d : PyDateTime),
      convert_to_datetime (stripNL raw) = some d →
      stepLine st raw = Except.ok ⟨d, st.weight_data⟩ ∧ d.hour = 0 ∧ d.minute = 0) ∧
    (∀ (st st2 : PState) (raw : List Char),
      convert_to_datetime (stripNL raw) = none →
      stepLine st raw = Except.ok st2 →
      dateOf st2.current_date = dateOf st.current_date) := by
  constructor
  · intro st raw d hconv
    exact ⟨step_header st raw d hconv, (convert_elim _ d hconv).2.1,
      (convert_elim _ d hconv).2.2⟩
  · intro st st2 raw hconv h
    rw [step_dateOf st st2 raw h, dateUpd, hconv]

/-- C6 (counterexample to the claim as stated): after the weight line
following a header, the carried state is the date at 06:00, not the date at
midnight, so the date-at-midnight state does not persist across non-header
lines. -/
theorem c6_counterexample :
    processLines initState
        ["Wed, Nov 06, 2024".toList, "06:00 Weight 70.5kg".toList] =
      Except.ok ⟨⟨2024, 11, 6, 6, 0⟩, [(⟨2024, 11, 6, 6, 0⟩, ⟨141, 2⟩)]⟩ ∧
    (⟨2024, 11, 6, 6, 0⟩ : PyDateTime).hour ≠ 0 :=
  ⟨rfl, by decide⟩

/-- C6 witness: a concrete header line sets the date at midnight. -/
theorem c6_witness :
    stepLine initState ("Wed, Nov 06, 2024".toList) =
        Except.ok ⟨⟨2024, 11, 6, 0, 0⟩, []⟩ ∧
      (⟨2024, 11, 6, 0, 0⟩ : PyDateTime).hour = 0 ∧
      (⟨2024, 11, 6, 0, 0⟩ : PyDateTime).minute = 0 :=
  c6_header_sets_date_midnight.1 initState ("Wed, Nov 06, 2024".toList)
    ⟨2024, 11, 6, 0, 0⟩ rfl

/-- C7 (amended): a read failure during iteration prints the distinct
could-not-read diagnostic and returns the mapping built so far, which is
not necessarily empty; an open failure returns the empty mapping with the
same diagnostic text. -/
theorem c7_read_failure_partial :
    (∀ (name : String) (lines : List (List Char)) (st : PState),
      processLines initState lines = Except.ok st →
      process_file name (FileInput.content lines true) =
        Except.ok ⟨[Diag.couldNotRead name], st.weight_data⟩) ∧
    (∀ name : String, process_file name FileInput.openFail =
      Except.ok ⟨[Diag.couldNotRead name], []⟩) ∧
    (∀ name : String, Diag.couldNotRead name ≠ Diag.fileNotFound name) := by
  refine ⟨?_, fun _ => rfl, fun name h => Diag.noConfusion h⟩
  intro name lines st h
  simp only [process_file, h]
  rfl

/-- C7 (counterexample to the claim as stated): a read failure after two
successfully processed lines returns a mapping holding the observation
already recorded, not the empty mapping. -/
theorem c7_counterexample :
    process_file "f" (FileInput.content
        ["Wed, Nov 06, 2024".toList, "06:00 Weight 70.5kg".toList] true) =
      Except.ok ⟨[Diag.couldNotRead "f"], [(⟨2024, 11, 6, 6, 0⟩, ⟨141, 2⟩)]⟩ ∧
    ([(⟨2024, 11, 6, 6, 0⟩, (⟨141, 2⟩ : PyFloat))] : List (PyDateTime × PyFloat)) ≠ [] :=
  ⟨rfl, by decide⟩

/-- C7 witness: the partial-mapping return on a concrete input. -/
theorem c7_witness :
    process_file "g" (FileInput.content
        ["Wed, Nov 06, 2024".toList, "06:00 Weight 70.5kg".toList] true) =
      Except.ok ⟨[Diag.couldNotRead "g"], [(⟨2024, 11, 6, 6, 0⟩, ⟨141, 2⟩)]⟩ :=
  c7_read_failure_partial.1 "g"
    ["Wed, Nov 06, 2024".toList, "06:00 Weight 70.5kg".toList]
    ⟨⟨2024, 11, 6, 6, 0⟩, [(⟨2024, 11, 6, 6, 0⟩, ⟨141, 2⟩)]⟩ rfl

/-- C8: process_file is a pure function of the file name and file contents,
so two runs on the same input yield equal results, and two successful
passes of the line loop from the freshly initialized state yield the same
mapping (current_date is a loop-local value reinitialized on every call;
the module has no mutable global state). -/
theorem c8_idempotent :
    (∀ (name : String) (input : FileInput),
      process_file name input = process_file name input) ∧
    (∀ (lines : List (List Char)) (st st2 : PState),
      processLines initState lines = Except.ok st →
      processLines initState lines = Except.ok st2 →
      st.weight_data = st2.weight_data) := by
  refine ⟨fun _ _ => rfl, ?_⟩
  intro lines st st2 h h2
  rw [h] at h2
  injection h2 with h3
  rw [h3]

/-- C8 witness: determinism of the line loop on a concrete input. -/
theorem c8_witness :
    ([(⟨2024, 11, 6, 6, 0⟩, (⟨141, 2⟩ : PyFloat))] : List (PyDateTime × PyFloat)) =
      [(⟨2024, 11, 6, 6, 0⟩, (⟨141, 2⟩ : PyFloat))] :=
  c8_idempotent.2 ["Wed, Nov 06, 2024".toList, "06:00 Weight 70.5kg".toList]
    ⟨⟨2024, 11, 6, 6, 0⟩, [(⟨2024, 11, 6, 6, 0⟩, ⟨141, 2⟩)]⟩
    ⟨⟨2024, 11, 6, 6, 0⟩, [(⟨2024, 11, 6, 6, 0⟩, ⟨141, 2⟩)]⟩ rfl rfl

/-- C9 (amended): on the open-failure diagnostic paths the returned mapping
is empty, the regression fit then raises on zero samples, and the process
exits nonzero; a mid-read failure path that already recorded at least one
observation completes normally with the diagnostic printed. -/
theorem c9_diagnostic_exit :
    (∀ (lines : List (List Char)) (st : PState),
      processLines initState lines = Except.ok st →
      st.weight_data ≠ [] →
      mainRun (FileInput.content lines true) =
        Except.ok [Diag.couldNotRead mainFileName]) ∧
    mainRun FileInput.notFound = Except.error PyErr.valueError ∧
    mainRun FileInput.openFail = Except.error PyErr.valueError := by
  refine ⟨?_, rfl, rfl⟩
  intro lines st h hne
  have h1 : process_file mainFileName (FileInput.content lines true) =
      Except.ok ⟨[Diag.couldNotRead mainFileName], st.weight_data⟩ := by
    simp only [process_file, h]
    rfl
  rcases hm : st.weight_data with _ | ⟨p, rest⟩
  · exact absurd hm hne
  · rw [hm] at h1
    simp only [mainRun, h1]
    rfl

/-- C9 (counterexample to the claim as stated): the file-not-found
diagnostic path does not exit with status 0: the empty mapping makes the
regression fit raise ValueError, which escapes main. -/
theorem c9_counterexample :
    mainRun FileInput.notFound = Except.error PyErr.valueError := rfl

/-- C9 witness: a diagnostic path with one recorded observation completes
normally. -/
theorem c9_witness :
    mainRun (FileInput.content
        ["Wed, Nov 06, 2024".toList, "06:00 Weight 70.5kg".toList] true) =
      Except.ok [Diag.couldNotRead mainFileName] :=
  c9_diagnostic_exit.1 ["Wed, Nov 06, 2024".toList, "06:00 Weight 70.5kg".toList]
    ⟨⟨2024, 11, 6, 6, 0⟩, [(⟨2024, 11, 6, 6, 0⟩, ⟨141, 2⟩)]⟩ rfl (by decide)

/-- C10: the date classification ignores which valid weekday abbreviation
starts the line, so a header whose weekday token does not name the actual
weekday of the date still succeeds: Mon, Nov 06, 2024 parses to 2024-11-06
at midnight and updates the carried date, although that date is not a
Monday (its day of week, counted with 0 as Monday, is nonzero). -/
theorem c10_weekday_not_validated :
    (∀ (a1 a2 a3 b1 b2 b3 : Char) (rest : List Char),
      weekdayOK a1 a2 a3 = true → weekdayOK b1 b2 b3 = true →
      convert_to_datetime (a1 :: a2 :: a3 :: rest) =
        convert_to_datetime (b1 :: b2 :: b3 :: rest)) ∧
    convert_to_datetime ("Mon, Nov 06, 2024".toList) = some ⟨2024, 11, 6, 0, 0⟩ ∧
    dayOfWeek 2024 11 6 ≠ 0 ∧
    stepLine initState ("Mon, Nov 06, 2024".toList) =
      Except.ok ⟨⟨2024, 11, 6, 0, 0⟩, []⟩ := by
  refine ⟨?_, rfl, by decide, rfl⟩
  intro a1 a2 a3 b1 b2 b3 rest h1 h2
  rcases rest with _ | ⟨c4, r1⟩
  · rfl
  · simp only [convert_to_datetime]
    rw [h1, h2]

/-- C10 witness: swapping the weekday token of a concrete header does not
change the parse. -/
theorem c10_witness :
    convert_to_datetime ('M' :: 'o' :: 'n' :: (", Nov 06, 2024".toList)) =
      convert_to_datetime ('W' :: 'e' :: 'd' :: (", Nov 06, 2024".toList)) :=
  c10_weekday_not_validated.1 'M' 'o' 'n' 'W' 'e' 'd' (", Nov 06, 2024".toList)
    (by decide) (by decide)

/-- C3 witness: last write wins on a concrete mapping. -/
theorem c3_witness :
    List.lookup (⟨2024, 11, 6, 6, 0⟩ : PyDateTime)
        (dictSet [(⟨2024, 11, 6, 6, 0⟩, ⟨141, 2⟩)] ⟨2024, 11, 6, 6, 0⟩ ⟨71, 1⟩) =
      some ⟨71, 1⟩ :=
  c3_overwrite_last_wins.1 [(⟨2024, 11, 6, 6, 0⟩, ⟨141, 2⟩)] ⟨2024, 11, 6, 6, 0⟩ ⟨71, 1⟩

/-- C5 witness: the missing-file result on a concrete name. -/
theorem c5_witness :
    process_file "log/missing.txt" FileInput.notFound =
      Except.ok ⟨[Diag.fileNotFound "log/missing.txt"], []⟩ :=
  c5_file_not_found "log/missing.txt"
